import Mathlib

/-!
Verification development for the WhatsApp → Google Drive assistant.

The definitions below are a shallow embedding of `src/server.js` and
`src/helpers/audit-logger.js`: strings are `List Char`/`String`, the
remote Drive store is an explicit list of file records queried by
filters, the audit log's filesystem is an explicit segment map, and the
pseudo-random session-id source is an explicit stream of draws.
-/

namespace WGA

/-- JS `\s` on the ASCII range used by the commands (by code point):
space 32, tab 9, LF 10, CR 13, FF 12, VT 11. -/
def isSpaceChar (c : Char) : Bool :=
  c.toNat = 32 || c.toNat = 9 || c.toNat = 10 || c.toNat = 13 ||
  c.toNat = 12 || c.toNat = 11

/-- JS `\d`: code points of `0`–`9`. -/
def isDigitChar (c : Char) : Bool :=
  48 ≤ c.toNat && c.toNat ≤ 57

/-- JS `.` (without the `s` flag): any char except the line terminators
LF, CR, U+2028, U+2029. -/
def isDotChar (c : Char) : Bool :=
  !(c.toNat = 10 || c.toNat = 13 || c.toNat = 0x2028 || c.toNat = 0x2029)

/-- JS `String.prototype.toUpperCase` on one ASCII char: map `a`–`z`
(97–122) down by 32. -/
def upperChar (c : Char) : Char :=
  if 97 ≤ c.toNat && c.toNat ≤ 122 then Char.ofNat (c.toNat - 32) else c

/-- JS `String.prototype.toLowerCase` on one ASCII char: map `A`–`Z`
(65–90) up by 32. -/
def lowerChar (c : Char) : Char :=
  if 65 ≤ c.toNat && c.toNat ≤ 90 then Char.ofNat (c.toNat + 32) else c

/-- `toUpperCase` over a string. -/
def jsUpper (s : List Char) : List Char := s.map upperChar

/-- `toLowerCase` over a string. -/
def jsLower (s : List Char) : List Char := s.map lowerChar

/-- JS `String.prototype.trim`: strip whitespace at both ends. -/
def jsTrim (s : List Char) : List Char :=
  ((s.dropWhile isSpaceChar).reverse.dropWhile isSpaceChar).reverse

/-- One item of an anchored linear regular expression, as used by
`parseCommand`'s seven patterns: a literal, a greedy `\s+`, or a
capturing group `(X+)` / `(X+?)` over a character class. -/
inductive RItem where
  | lit (l : List Char)
  | ws
  | grp (lazy : Bool) (p : Char → Bool)

/-- Length of the longest prefix of `s` whose chars satisfy `p`. -/
def runLen (p : Char → Bool) : List Char → Nat
  | [] => 0
  | c :: t => if p c then runLen p t + 1 else 0

/-- Candidate segment lengths for a one-or-more quantifier over a run of
`n` usable chars, in the order a backtracking engine tries them:
shortest first when lazy, longest first when greedy. -/
def candidates (lz : Bool) (n : Nat) : List Nat :=
  if lz then List.range' 1 n else (List.range' 1 n).reverse

/-- First success of `f` along a list of candidates. -/
def firstSome {α : Type} (f : Nat → Option α) : List Nat → Option α
  | [] => none
  | k :: t =>
    match f k with
    | some r => some r
    | none => firstSome f t

/-- Backtracking matcher for an anchored sequence of items against the
whole of `s`; returns the captured groups on success.  Mirrors the JS
engine's preference order on the linear patterns of `parseCommand`. -/
def matchItems : List RItem → List Char → Option (List (List Char))
  | [], s => if s = [] then some [] else none
  | .lit l :: rest, s =>
      if l.isPrefixOf s then matchItems rest (s.drop l.length) else none
  | .ws :: rest, s =>
      firstSome (fun k => matchItems rest (s.drop k))
        (candidates false (runLen isSpaceChar s))
  | .grp lz p :: rest, s =>
      firstSome (fun k => (matchItems rest (s.drop k)).map (fun caps => s.take k :: caps))
        (candidates lz (runLen p s))

/-- `parseInt` on an all-digit string. -/
def digitsToNat (d : List Char) : Nat :=
  d.foldl (fun a c => a * 10 + (c.toNat - 48)) 0

/-- `/^LIST\s+(.+?)\s+PAGE\s+(\d+)$/` -/
def listPagePat : List RItem :=
  [.lit "LIST".data, .ws, .grp true isDotChar, .ws, .lit "PAGE".data, .ws,
   .grp false isDigitChar]

/-- `/^LIST\s+(.+)$/` -/
def listPat : List RItem :=
  [.lit "LIST".data, .ws, .grp false isDotChar]

/-- `/^DELETE\s+(.+?)\s+CONFIRM$/` -/
def deleteConfirmPat : List RItem :=
  [.lit "DELETE".data, .ws, .grp true isDotChar, .ws, .lit "CONFIRM".data]

/-- `/^DELETE\s+(.+)$/` -/
def deletePat : List RItem :=
  [.lit "DELETE".data, .ws, .grp false isDotChar]

/-- `/^MOVE\s+(.+?)\s+(.+)$/` -/
def movePat : List RItem :=
  [.lit "MOVE".data, .ws, .grp true isDotChar, .ws, .grp false isDotChar]

/-- `/^SUMMARY\s+(.+)$/` -/
def summaryPat : List RItem :=
  [.lit "SUMMARY".data, .ws, .grp false isDotChar]

/-- `/^HELP$/` -/
def helpPat : List RItem :=
  [.lit "HELP".data]

/-- The typed command intents produced by `parseCommand`. -/
inductive Command where
  | list (folderPath : String) (page : Nat)
  | deleteRequest (filePath : String)
  | deleteConfirm (filePath : String)
  | move (sourcePath destinationPath : String)
  | summary (folderPath : String)
  | help
  | unknown
deriving DecidableEq

/-- `match[i+1]` of a successful JS regex match. -/
def cap (caps : List (List Char)) (i : Nat) : List Char := caps.getD i []

/-- The SUMMARY branch's path normalization: after `trim`, a path that
starts with `/` and contains a `.` has the leading slash stripped and is
trimmed again. -/
def summaryNormalize (p : List Char) : List Char :=
  let t := jsTrim p
  if t.head? = some '/' && t.contains '.' then jsTrim (t.drop 1) else t

/-- `parseCommand` from `src/server.js`: uppercase the trimmed body and
test the seven patterns in source order. -/
def parseCommand (msg : String) : Command :=
  let body := jsUpper (jsTrim msg.data)
  match matchItems listPagePat body with
  | some caps => .list ⟨cap caps 0⟩ (digitsToNat (cap caps 1))
  | none =>
  match matchItems listPat body with
  | some caps => .list ⟨cap caps 0⟩ 1
  | none =>
  match matchItems deleteConfirmPat body with
  | some caps => .deleteConfirm ⟨cap caps 0⟩
  | none =>
  match matchItems deletePat body with
  | some caps => .deleteRequest ⟨cap caps 0⟩
  | none =>
  match matchItems movePat body with
  | some caps => .move ⟨cap caps 0⟩ ⟨cap caps 1⟩
  | none =>
  match matchItems summaryPat body with
  | some caps => .summary ⟨summaryNormalize (cap caps 0)⟩
  | none =>
  match matchItems helpPat body with
  | some _ => .help
  | none => .unknown

example : parseCommand "LIST A PAGE 2" = .list "A" 2 := by decide
example : parseCommand "LIST A PAGE 0" = .list "A" 0 := by decide
example : parseCommand "LIST A PAGE TWO" = .list "A PAGE TWO" 1 := by decide
example : parseCommand "delete Report.pdf" = .deleteRequest "REPORT.PDF" := by decide
example : parseCommand "DELETE x CONFIRM" = .deleteConfirm "X" := by decide
example : parseCommand "move a b" = .move "A" "B" := by decide
example : parseCommand "  help  " = .help := by decide
example : parseCommand "what" = .unknown := by decide
example : parseCommand "SUMMARY /resume.pdf" = .summary "RESUME.PDF" := by decide

/-! ## The remote Drive store

The Drive service is external to the repository; its query semantics
(exact name queries are case-sensitive, results come back in store
order, a missing name is an empty result list, `orderBy=name` sorts
children by name, `update` with `addParents`/`removeParents` rewrites
the parent set) are modelled from the spec's collaborator contract. -/

/-- One store entry as the server reads it (`files(id, name, mimeType,
size, modifiedTime, parents)`). -/
structure DFile where
  id : String
  name : String
  mimeType : String
  trashed : Bool
  parents : List String
deriving DecidableEq

/-- The folder MIME type used in the server's queries. -/
def folderMime : String := "application/vnd.google-apps.folder"

/-- ASCII apostrophe, used in the server's error messages. -/
def apos : String := (Char.ofNat 39).toString

def folderNotFoundMsg (p : String) : String :=
  "Folder " ++ apos ++ p ++ apos ++ " not found"

def fileNotFoundMsg (p : String) : String :=
  "File " ++ apos ++ p ++ apos ++ " not found"

def sourceNotFoundMsg (p : String) : String :=
  "Source file " ++ apos ++ p ++ apos ++ " not found"

def destNotFoundMsg (p : String) : String :=
  "Destination folder " ++ apos ++ p ++ apos ++ " not found"

/-- Query `name='p' and mimeType='folder'`. -/
def qNameFolder (store : List DFile) (p : String) : List DFile :=
  store.filter (fun f => f.name = p && f.mimeType = folderMime)

/-- Query `mimeType='folder'`. -/
def qFolders (store : List DFile) : List DFile :=
  store.filter (fun f => f.mimeType = folderMime)

/-- Query `name='p' and trashed=false`. -/
def qNameNotTrashed (store : List DFile) (p : String) : List DFile :=
  store.filter (fun f => f.name = p && !f.trashed)

/-- Query `trashed=false`. -/
def qNotTrashed (store : List DFile) : List DFile :=
  store.filter (fun f => !f.trashed)

/-- The case-insensitive name comparison
`file.name.toLowerCase() === path.toLowerCase()`. -/
def ciEq (a b : String) : Bool :=
  jsLower a.data = jsLower b.data

def insertByName (f : DFile) : List DFile → List DFile
  | [] => [f]
  | g :: t => if f.name ≤ g.name then f :: g :: t else g :: insertByName f t

/-- Stable sort by name, modelling the store's `orderBy: 'name'`. -/
def sortByName (l : List DFile) : List DFile := l.foldr insertByName []

/-- Query `'folderId' in parents and trashed=false` with `orderBy: 'name'`. -/
def qChildren (store : List DFile) (folderId : String) : List DFile :=
  sortByName (store.filter (fun f => f.parents.contains folderId && !f.trashed))

/-- The two-phase file lookup of `deleteFile` and `moveFile`'s source
lookup (the server repeats this block inline at both sites): exact
`name='p' and trashed=false` query, first result wins; if it is empty,
fetch everything not trashed and take the first case-insensitive name
match in store order. -/
def resolveFileByName (store : List DFile) (p : String) : Option DFile :=
  match qNameNotTrashed store p with
  | [] => (qNotTrashed store).find? (fun f => ciEq f.name p)
  | f :: _ => some f

/-- The two-phase folder lookup of `listFiles` and `moveFile`'s
destination lookup (again repeated inline in the server): `/` and
`ROOT` are the sentinel `root`; otherwise exact name+folder-mime query,
first result wins; if empty, fetch all folders and take the first
case-insensitive name match in store order. -/
def resolveFolderId (store : List DFile) (p : String) : Option String :=
  if p = "/" || p = "ROOT" then some "root"
  else match qNameFolder store p with
  | [] => ((qFolders store).find? (fun f => ciEq f.name p)).map (fun f => f.id)
  | f :: _ => some f.id

/-- One call issued to the Drive client. -/
inductive DriveCall where
  | filesList
  | filesGet (fileId : String)
  | filesDelete (fileId : String)
  | filesUpdate (fileId : String) (addParents : String) (removeParents : List String)
deriving DecidableEq

def isDeleteCall : DriveCall → Bool
  | .filesDelete _ => true
  | _ => false

/-- The `files.list` calls issued while resolving a file name: one for
the exact query, one more for the fetch-everything fallback. -/
def resolveFileCalls (store : List DFile) (p : String) : List DriveCall :=
  if qNameNotTrashed store p = [] then [.filesList, .filesList] else [.filesList]

/-- The `files.list` calls issued while resolving a folder path. -/
def resolveFolderCalls (store : List DFile) (p : String) : List DriveCall :=
  if p = "/" || p = "ROOT" then []
  else if qNameFolder store p = [] then [.filesList, .filesList] else [.filesList]

/-- Result shape of `listFiles`. -/
inductive ListResult where
  | err (msg : String)
  | ok (files : List DFile) (totalFiles page totalPages : Nat)
deriving DecidableEq

/-- JS `Array.prototype.slice(s, e)` (negative indices count from the
end). -/
def jsSlice {α : Type} (l : List α) (s e : Int) : List α :=
  let n : Int := l.length
  let s' := if s < 0 then max (n + s) 0 else min s n
  let e' := if e < 0 then max (n + e) 0 else min e n
  (l.drop s'.toNat).take (e'.toNat - s'.toNat)

def pageSize : Nat := 10

/-- `listFiles` from `src/server.js`: resolve the folder, query its
non-trashed children ordered by name, slice page `page` of ten, report
`totalPages = Math.ceil(total/10)`. -/
def listFiles (store : List DFile) (folderPath : String) (page : Nat) :
    ListResult × List DriveCall :=
  match resolveFolderId store folderPath with
  | none => (.err (folderNotFoundMsg folderPath), resolveFolderCalls store folderPath)
  | some folderId =>
    let allFiles := qChildren store folderId
    let startIndex : Int := ((page : Int) - 1) * pageSize
    let endIndex : Int := startIndex + pageSize
    (.ok (jsSlice allFiles startIndex endIndex) allFiles.length page
       ((allFiles.length + pageSize - 1) / pageSize),
     resolveFolderCalls store folderPath ++ [.filesList])

/-- Result shape of `deleteFile`. -/
inductive DeleteResult where
  | err (msg : String)
  | ok (fileName : String)
deriving DecidableEq

/-- `deleteFile` from `src/server.js`: two-phase lookup, then one
`files.delete` on the resolved id; a missing file is an error value. -/
def deleteFile (store : List DFile) (filePath : String) :
    DeleteResult × List DriveCall :=
  match resolveFileByName store filePath with
  | none => (.err (fileNotFoundMsg filePath), resolveFileCalls store filePath)
  | some f => (.ok filePath, resolveFileCalls store filePath ++ [.filesDelete f.id])

/-- Result shape of `moveFile`. -/
inductive MoveResult where
  | err (msg : String)
  | ok (fileName destination : String)
deriving DecidableEq

/-- `moveFile` from `src/server.js`: resolve source file and destination
folder, then one `files.update` adding the destination as parent and
removing every previous parent. -/
def moveFile (store : List DFile) (sourcePath destinationPath : String) :
    MoveResult × List DriveCall :=
  match resolveFileByName store sourcePath with
  | none => (.err (sourceNotFoundMsg sourcePath), resolveFileCalls store sourcePath)
  | some sourceFile =>
    match resolveFolderId store destinationPath with
    | none =>
      (.err (destNotFoundMsg destinationPath),
       resolveFileCalls store sourcePath ++ resolveFolderCalls store destinationPath)
    | some destinationId =>
      (.ok sourcePath destinationPath,
       resolveFileCalls store sourcePath ++ resolveFolderCalls store destinationPath ++
         [.filesUpdate sourceFile.id destinationId sourceFile.parents])

/-- Effect of one Drive call on the store (`update` with
`addParents`/`removeParents` rewrites the parent set; `delete` removes
the file). Modelled from the spec's remote-store contract. -/
def applyCall (store : List DFile) : DriveCall → List DFile
  | .filesDelete fid => store.filter (fun f => !(f.id = fid))
  | .filesUpdate fid add remove =>
      store.map (fun f =>
        if f.id = fid then
          { f with parents := f.parents.filter (fun p => !(remove.contains p)) ++ [add] }
        else f)
  | _ => store

def applyCalls (store : List DFile) (calls : List DriveCall) : List DFile :=
  calls.foldl applyCall store

/-- JS `String.prototype.includes`: `sub` occurs contiguously in `s`. -/
def jsIncludes (s sub : List Char) : Bool :=
  (List.range (s.length + 1)).any (fun i => sub.isPrefixOf (s.drop i))

/-- `mimeType.includes(...)` allow-list for summarizable files. -/
def isSummarizableMime (m : String) : Bool :=
  jsIncludes m.data "text/".data ||
  jsIncludes m.data "application/pdf".data ||
  jsIncludes m.data "application/vnd.google-apps.document".data ||
  jsIncludes m.data "application/vnd.openxmlformats-officedocument".data

/-- Drive calls of `summarizeContent`: a path containing a `.` and not
ending in `/` is treated as a file (exact search, then fetch if of an
allowed type); otherwise the first page of the folder is listed and
each allowed child fetched. -/
def summarizeContentCalls (store : List DFile) (p : String) : List DriveCall :=
  let isFilePath := p.data.contains '.' && !(p.data.getLast? = some '/')
  if isFilePath then
    match store.filter (fun f => f.name = p && !f.trashed) with
    | [] => [.filesList]
    | f :: _ =>
      if isSummarizableMime f.mimeType then [.filesList, .filesGet f.id]
      else [.filesList]
  else
    (listFiles store p 1).2 ++
      match (listFiles store p 1).1 with
      | .err _ => []
      | .ok files _ _ _ =>
        (files.filter (fun f => isSummarizableMime f.mimeType)).map
          (fun f => .filesGet f.id)

/-- Drive calls performed by the webhook handler for one parsed command
(`app.post('/whatsapp-webhook')`): LIST lists, DELETE_REQUEST only
replies with a prompt, DELETE_CONFIRM deletes immediately, MOVE updates,
SUMMARY summarizes; HELP and UNKNOWN touch nothing. -/
def handleCommandCalls (store : List DFile) : Command → List DriveCall
  | .list p n => (listFiles store p n).2
  | .deleteRequest _ => []
  | .deleteConfirm p => (deleteFile store p).2
  | .move s d => (moveFile store s d).2
  | .summary p => summarizeContentCalls store p
  | .help => []
  | .unknown => []

/-- Drive calls for one raw incoming message. -/
def handleMessage (store : List DFile) (msg : String) : List DriveCall :=
  handleCommandCalls store (parseCommand msg)

/-- The server keeps no state between webhook invocations that the
dispatch reads: a sequence of messages is handled message by message,
each against the store alone. -/
def processMessages (store : List DFile) (msgs : List String) : List (List DriveCall) :=
  msgs.map (handleMessage store)

/-! ## The audit logger (`src/helpers/audit-logger.js`)

`Math.random().toString(36).substring(2, 15)` is modelled as one draw
from an explicit stream `rng : Nat → String` consumed left to right;
each entry records the fields relevant to the session-id claims. -/

/-- One written audit entry: top-level `sessionId` plus the
`metadata.sessionId` that the operation-level log methods receive. -/
structure AuditEntry where
  level : String
  message : String
  sessionId : String
  metaType : String
  metaSessionId : Option String
deriving DecidableEq

/-- Logger state: position in the random stream and the entries written
so far, in write order. -/
structure LoggerState where
  ctr : Nat
  written : List AuditEntry
deriving DecidableEq

/-- `generateSessionId`: two random draws concatenated. -/
def generateSessionId (rng : Nat → String) (n : Nat) : String × Nat :=
  (rng n ++ rng (n + 1), n + 2)

def jsUpperS (s : String) : String := ⟨jsUpper s.data⟩

/-- `formatLogEntry`: uppercases the level and stamps the entry with a
freshly generated `sessionId`. -/
def formatLogEntry (rng : Nat → String) (st : LoggerState)
    (level message metaType : String) (metaSessionId : Option String) :
    AuditEntry × LoggerState :=
  let (sid, ctr') := generateSessionId rng st.ctr
  ({ level := jsUpperS level, message := message, sessionId := sid,
     metaType := metaType, metaSessionId := metaSessionId },
   { st with ctr := ctr' })

def writeEntry (st : LoggerState) (e : AuditEntry) : LoggerState :=
  { st with written := st.written ++ [e] }

/-- `logCommand`: writes the command entry and returns its sessionId. -/
def logCommand (rng : Nat → String) (st : LoggerState) : LoggerState × String :=
  let (e, st1) := formatLogEntry rng st "info" "WhatsApp command executed"
    "command_execution" none
  (writeEntry st1 e, e.sessionId)

/-- `logDriveOperation(operation, details, sessionId)`. -/
def logDriveOperation (rng : Nat → String) (st : LoggerState)
    (operation sid : String) : LoggerState :=
  let (e, st1) := formatLogEntry rng st "info"
    ("Google Drive " ++ operation ++ " operation") "drive_operation" (some sid)
  writeEntry st1 e

/-- `logSecurityEvent(event, details, sessionId)`. -/
def logSecurityEvent (rng : Nat → String) (st : LoggerState)
    (event sid : String) : LoggerState :=
  let (e, st1) := formatLogEntry rng st "warn" ("Security event: " ++ event)
    "security_event" (some sid)
  writeEntry st1 e

/-- `logAISummarization(fileInfo, summary, sessionId)`. -/
def logAISummarization (rng : Nat → String) (st : LoggerState)
    (sid : String) : LoggerState :=
  let (e, st1) := formatLogEntry rng st "info" "AI summarization completed"
    "ai_summarization" (some sid)
  writeEntry st1 e

/-- The audit writes the webhook handler performs for one parsed
command: `logCommand` first, then the per-branch operation event, with
`logCommand`'s returned sessionId threaded into the latter's metadata. -/
def webhookLogging (rng : Nat → String) (st : LoggerState) (c : Command) :
    LoggerState × String :=
  let (st1, sid) := logCommand rng st
  match c with
  | .list _ _ => (logDriveOperation rng st1 "list" sid, sid)
  | .deleteRequest _ => (logSecurityEvent rng st1 "delete_request" sid, sid)
  | .deleteConfirm _ => (logDriveOperation rng st1 "delete" sid, sid)
  | .move _ _ => (logDriveOperation rng st1 "move" sid, sid)
  | .summary _ => (logAISummarization rng st1 sid, sid)
  | .help => (st1, sid)
  | .unknown => (st1, sid)

/-! ## Audit segment rotation

The log directory is modelled as the active segment's content plus a
map from rotation index `i` to the content of `audit.log.i`. -/

/-- The audit log's on-disk segments. -/
structure LogFS where
  active : Option String
  rot : Nat → Option String

/-- One iteration of `rotateLogFile`'s descending loop at index `i`:
if `audit.log.i` exists, delete it when `i === maxFiles - 1`, otherwise
rename it to `audit.log.(i+1)`. -/
def rotStep (maxFiles : Nat) (fs : LogFS) (i : Nat) : LogFS :=
  match fs.rot i with
  | none => fs
  | some c =>
    if i = maxFiles - 1 then
      { fs with rot := fun j => if j = i then none else fs.rot j }
    else
      { fs with rot := fun j =>
          if j = i + 1 then some c else if j = i then none else fs.rot j }

/-- The loop `for (let i = maxFiles - 1; i >= 1; i--)`, processing
indices `i, i-1, …, 1`. -/
def rotLoop (maxFiles : Nat) (fs : LogFS) : Nat → LogFS
  | 0 => fs
  | i + 1 => rotLoop maxFiles (rotStep maxFiles fs (i + 1)) i

/-- `rotateLogFile`: shift the rotated segments, then rename the active
segment to `.1`. -/
def rotateLogFile (maxFiles : Nat) (fs : LogFS) : LogFS :=
  let fs1 := rotLoop maxFiles fs (maxFiles - 1)
  match fs1.active with
  | none => fs1
  | some c => { active := none, rot := fun j => if j = 1 then some c else fs1.rot j }

/-- Byte size of a segment, modelled as its length. -/
def segSize (s : String) : Nat := s.length

/-- `writeLogEntry`: rotate first when the active segment exceeds
`maxFileSize`, then append the line (creating the file if absent). -/
def writeLogEntry (maxFiles maxFileSize : Nat) (fs : LogFS) (line : String) : LogFS :=
  let fs' :=
    match fs.active with
    | some c => if segSize c > maxFileSize then rotateLogFile maxFiles fs else fs
    | none => fs
  { fs' with active := some ((fs'.active.getD "") ++ line) }

/-! ## The Gemini summarization request (`summarizeWithGemini`) -/

/-- The prompt text sent to the summary service: a fixed template, the
file name, and `content.substring(0, 4000)`. -/
def geminiPromptText (content fileName : String) : String :=
  "Please provide a concise summary of the following document content. Focus on key points, main topics, and important information. Keep the summary under 200 words.\n\nDocument Name: " ++
  fileName ++ "\n\nContent:\n" ++ ⟨content.data.take 4000⟩

/-- The full request: endpoint URL (carrying the API key) and the one
text part of the JSON body. -/
def geminiRequest (apiKey content fileName : String) : String × String :=
  ("https://generativelanguage.googleapis.com/v1beta/models/gemini-1.5-flash:generateContent?key=" ++
     apiKey,
   geminiPromptText content fileName)

/-! ## Character facts -/

lemma char_toNat_ofNat_lt {n : Nat} (h : n < 55296) : (Char.ofNat n).toNat = n := by
  have hv : Nat.isValidChar n := Or.inl h
  rw [Char.ofNat, dif_pos hv]
  rfl

lemma char_le_toNat {a b : Char} : a ≤ b ↔ a.toNat ≤ b.toNat := Iff.rfl

lemma char_eq_toNat {a b : Char} : a = b ↔ a.toNat = b.toNat :=
  ⟨congrArg _, fun h => Char.ext (UInt32.toNat.inj h)⟩

lemma upperChar_eq_self {c : Char} (h : ¬(97 ≤ c.toNat ∧ c.toNat ≤ 122)) :
    upperChar c = c := by
  rw [upperChar, if_neg]
  simpa [Bool.and_eq_true, decide_eq_true_eq] using h

lemma upperChar_eq_of {c : Char} (h : 97 ≤ c.toNat ∧ c.toNat ≤ 122) :
    upperChar c = Char.ofNat (c.toNat - 32) := by
  rw [upperChar, if_pos]
  simpa [Bool.and_eq_true, decide_eq_true_eq] using h

lemma upperChar_idem (c : Char) : upperChar (upperChar c) = upperChar c := by
  by_cases h : 97 ≤ c.toNat ∧ c.toNat ≤ 122
  · rw [upperChar_eq_of h]
    have ht : (Char.ofNat (c.toNat - 32)).toNat = c.toNat - 32 :=
      char_toNat_ofNat_lt (by omega)
    exact upperChar_eq_self (by omega)
  · rw [upperChar_eq_self h]
    exact upperChar_eq_self h

lemma mem_jsUpper_fixed {c : Char} {l : List Char} (h : c ∈ jsUpper l) :
    upperChar c = c := by
  obtain ⟨a, -, ha⟩ := List.mem_map.1 h
  rw [← ha]
  exact upperChar_idem a

lemma jsUpper_eq_self_of_mem {l : List Char} (h : ∀ c ∈ l, upperChar c = c) :
    jsUpper l = l := by
  induction l with
  | nil => rfl
  | cons c t ih =>
    have ht := ih fun x hx => h x (by simp [hx])
    simp only [jsUpper, List.map_cons] at *
    rw [h c (by simp), ht]

lemma isDigitChar_toNat {c : Char} (h : isDigitChar c = true) :
    48 ≤ c.toNat ∧ c.toNat ≤ 57 := by
  simpa [isDigitChar, Bool.and_eq_true, decide_eq_true_eq] using h

lemma isDigit_not_space {c : Char} (h : isDigitChar c = true) :
    isSpaceChar c = false := by
  have hr := isDigitChar_toNat h
  simp only [isSpaceChar, Bool.or_eq_false_iff, decide_eq_false_iff_not]
  omega

lemma isDigit_isDot {c : Char} (h : isDigitChar c = true) :
    isDotChar c = true := by
  have hr := isDigitChar_toNat h
  simp only [isDotChar, Bool.not_eq_true', Bool.or_eq_false_iff,
    decide_eq_false_iff_not]
  omega

lemma isDigit_upper_fixed {c : Char} (h : isDigitChar c = true) :
    upperChar c = c := by
  have hr := isDigitChar_toNat h
  exact upperChar_eq_self (by omega)

/-! ## Generic facts about the matcher -/

lemma firstSome_eq_some {α : Type} {f : Nat → Option α} {ks : List Nat} {r : α}
    (h : firstSome f ks = some r) : ∃ k ∈ ks, f k = some r := by
  induction ks with
  | nil => simp [firstSome] at h
  | cons k t ih =>
    rw [firstSome] at h
    cases hf : f k with
    | some v => rw [hf] at h; exact ⟨k, by simp, by rw [hf, ← h]⟩
    | none =>
      rw [hf] at h
      obtain ⟨k', hk', hfk'⟩ := ih h
      exact ⟨k', by simp [hk'], hfk'⟩

lemma mem_candidates {lz : Bool} {n k : Nat} (h : k ∈ candidates lz n) :
    1 ≤ k ∧ k ≤ n := by
  cases lz with
  | true => simp [candidates] at h; omega
  | false => simp [candidates] at h; omega

lemma runLen_le_length (p : Char → Bool) (s : List Char) : runLen p s ≤ s.length := by
  induction s with
  | nil => simp [runLen]
  | cons c t ih =>
    rw [runLen]
    split
    · simp only [List.length_cons]
      omega
    · simp

lemma all_take_of_le_runLen {p : Char → Bool} {s : List Char} {k : Nat}
    (h : k ≤ runLen p s) : ∀ c ∈ s.take k, p c = true := by
  induction s generalizing k with
  | nil => simp
  | cons c t ih =>
    rw [runLen] at h
    cases k with
    | zero => simp
    | succ k' =>
      split at h
      · intro x hx
        rw [List.take_succ_cons] at hx
        rcases List.mem_cons.1 hx with rfl | hx'
        · assumption
        · exact ih (by omega) x hx'
      · omega

lemma runLen_all {p : Char → Bool} {s : List Char} (h : ∀ c ∈ s, p c = true) :
    runLen p s = s.length := by
  induction s with
  | nil => rfl
  | cons c t ih =>
    rw [runLen, if_pos (h c (by simp))]
    simp [ih fun x hx => h x (by simp [hx])]

/-! ## C10: only the first 4000 characters reach the summary service -/

/-- C10: two file contents that agree on their first 4000 characters
produce identical summarization requests (same URL, same prompt text);
content beyond index 4000 never influences the request. -/
theorem gemini_first_4000 (apiKey c1 c2 fileName : String)
    (h : c1.data.take 4000 = c2.data.take 4000) :
    geminiRequest apiKey c1 fileName = geminiRequest apiKey c2 fileName := by
  simp only [geminiRequest, geminiPromptText, h]

/-- Witness for C10 at contents that differ only beyond index 4000. -/
theorem gemini_first_4000_witness :
    geminiRequest "k" ⟨List.replicate 4001 'a'⟩ "f" =
      geminiRequest "k" ⟨List.replicate 4000 'a' ++ ['b']⟩ "f" := by
  refine gemini_first_4000 "k" _ _ "f" ?_
  show (List.replicate 4001 'a').take 4000 = (List.replicate 4000 'a' ++ ['b']).take 4000
  have h2 : (List.replicate 4000 'a' ++ ['b']).take 4000 = List.replicate 4000 'a' := by
    have hlen : (List.replicate 4000 'a').length = 4000 := List.length_replicate _ _
    have ht := List.take_left (List.replicate 4000 'a') (['b'] : List Char)
    rw [hlen] at ht
    exact ht
  rw [h2, List.take_replicate]
  congr 1

/-! ## C2: session ids across the audit events of one message -/

/-- A concrete random stream: the draw at position `n` is the decimal
digit of `n mod 10`. -/
def rngDemo : Nat → String := fun n => String.mk [Char.ofNat (48 + n % 10)]

/-- C2 counterexample: handling a single `LIST /` message writes two
audit events whose top-level `sessionId` fields differ, because
`formatLogEntry` generates a fresh sessionId for every entry. -/
theorem sessionId_not_shared_counterexample :
    ((webhookLogging rngDemo ⟨0, []⟩ (Command.list "/" 1)).1.written.map
        (fun e => e.sessionId)) = ["01", "23"] ∧ ("01" : String) ≠ "23" := by
  constructor
  · rfl
  · decide

/-- C2 amended: one message still yields exactly one sessionId at the
orchestration level — the value returned by `logCommand`, which is the
first written event's own sessionId — and every further audit event of
the message carries that value in its `metadata.sessionId`; only the
top-level `sessionId` fields are freshly generated per entry. -/
theorem sessionId_threading (rng : Nat → String) (st : LoggerState) (c : Command) :
    ∃ new : List AuditEntry,
      (webhookLogging rng st c).1.written = st.written ++ new ∧
      new ≠ [] ∧
      new.head?.map (fun e => e.sessionId) = some (webhookLogging rng st c).2 ∧
      ∀ e ∈ new.tail, e.metaSessionId = some (webhookLogging rng st c).2 := by
  refine ⟨(webhookLogging rng st c).1.written.drop st.written.length, ?_, ?_, ?_, ?_⟩ <;>
    cases c <;>
      simp [webhookLogging, logCommand, logDriveOperation, logSecurityEvent,
        logAISummarization, formatLogEntry, writeEntry, generateSessionId,
        List.drop_left]

/-! ## C1: DELETE_CONFIRM is stateless and deletes exactly once -/

def demoStore : List DFile :=
  [{ id := "id1", name := "X", mimeType := "text/plain", trashed := false,
     parents := ["root"] }]

/-- C1: a message parsed as DeleteConfirm(p) whose path resolves to file
`f` makes the webhook handler issue exactly one `files.delete`, on
`f.id`; and since the handler reads no cross-message state, the calls
for the message are the same whatever messages preceded it — in
particular a `DELETE x CONFIRM` with no prior `DELETE x` still
executes the deletion. -/
theorem deleteConfirm_stateless (store : List DFile) (m p : String) (f : DFile)
    (hp : parseCommand m = .deleteConfirm p)
    (hr : resolveFileByName store p = some f) :
    (handleMessage store m).filter isDeleteCall = [.filesDelete f.id] ∧
    ∀ prior : List String,
      (processMessages store (prior ++ [m])).getLast? =
        some (handleMessage store m) := by
  constructor
  · rw [handleMessage, hp]
    show ((deleteFile store p).2).filter isDeleteCall = _
    rw [deleteFile, hr]
    simp only [resolveFileCalls]
    split <;> simp [isDeleteCall]
  · intro prior
    simp [processMessages]

/-- Witness for C1: a store holding only `X`, the message
`DELETE X CONFIRM`, and an empty history. -/
theorem deleteConfirm_stateless_witness :
    (handleMessage demoStore "DELETE X CONFIRM").filter isDeleteCall =
        [DriveCall.filesDelete "id1"] ∧
    (processMessages demoStore ([] ++ ["DELETE X CONFIRM"])).getLast? =
        some (handleMessage demoStore "DELETE X CONFIRM") :=
  ⟨(deleteConfirm_stateless demoStore "DELETE X CONFIRM" "X"
      { id := "id1", name := "X", mimeType := "text/plain", trashed := false,
        parents := ["root"] } (by decide) (by decide)).1,
   (deleteConfirm_stateless demoStore "DELETE X CONFIRM" "X"
      { id := "id1", name := "X", mimeType := "text/plain", trashed := false,
        parents := ["root"] } (by decide) (by decide)).2 []⟩

/-! ## C9: the grammar is total -/

def allPats : List (List RItem) :=
  [listPagePat, listPat, deleteConfirmPat, deletePat, movePat, summaryPat, helpPat]

/-- C9: `parseCommand` is a total function: every input yields exactly
one `Command` variant (it is a Lean function into the closed inductive
`Command`), and an input matching none of the seven patterns yields
`unknown`. -/
theorem grammar_total (s : String) :
    ((∀ pat ∈ allPats, matchItems pat (jsUpper (jsTrim s.data)) = none) →
      parseCommand s = .unknown) ∧
    ((∃ p n, parseCommand s = .list p n) ∨
     (∃ p, parseCommand s = .deleteRequest p) ∨
     (∃ p, parseCommand s = .deleteConfirm p) ∨
     (∃ a b, parseCommand s = .move a b) ∨
     (∃ p, parseCommand s = .summary p) ∨
     parseCommand s = .help ∨
     parseCommand s = .unknown) := by
  constructor
  · intro h
    have h1 := h listPagePat (by simp [allPats])
    have h2 := h listPat (by simp [allPats])
    have h3 := h deleteConfirmPat (by simp [allPats])
    have h4 := h deletePat (by simp [allPats])
    have h5 := h movePat (by simp [allPats])
    have h6 := h summaryPat (by simp [allPats])
    have h7 := h helpPat (by simp [allPats])
    simp only [parseCommand, h1, h2, h3, h4, h5, h6, h7]
  · cases hc : parseCommand s with
    | list p n => exact Or.inl ⟨p, n, rfl⟩
    | deleteRequest p => exact Or.inr (Or.inl ⟨p, rfl⟩)
    | deleteConfirm p => exact Or.inr (Or.inr (Or.inl ⟨p, rfl⟩))
    | move a b => exact Or.inr (Or.inr (Or.inr (Or.inl ⟨a, b, rfl⟩)))
    | summary p => exact Or.inr (Or.inr (Or.inr (Or.inr (Or.inl ⟨p, rfl⟩))))
    | help => exact Or.inr (Or.inr (Or.inr (Or.inr (Or.inr (Or.inl rfl)))))
    | unknown => exact Or.inr (Or.inr (Or.inr (Or.inr (Or.inr (Or.inr rfl)))))

/-- Witness for C9 at an input matching no pattern. -/
theorem grammar_total_witness : parseCommand "!?" = .unknown :=
  (grammar_total "!?").1 (by decide)

/-! ## Soundness of the matcher: a successful match decomposes the
input into segments fitting the items, with the groups as captures -/

inductive Decomp : List RItem → List Char → List (List Char) → Prop where
  | nil : Decomp [] [] []
  | lit {rest : List RItem} {s : List Char} {caps : List (List Char)}
      (l : List Char) :
      Decomp rest s caps → Decomp (.lit l :: rest) (l ++ s) caps
  | ws {rest : List RItem} {s : List Char} {caps : List (List Char)}
      {seg : List Char} :
      seg ≠ [] → (∀ c ∈ seg, isSpaceChar c = true) →
      Decomp rest s caps → Decomp (.ws :: rest) (seg ++ s) caps
  | grp {rest : List RItem} {s : List Char} {caps : List (List Char)}
      {seg : List Char} {lz : Bool} {p : Char → Bool} :
      seg ≠ [] → (∀ c ∈ seg, p c = true) →
      Decomp rest s caps → Decomp (.grp lz p :: rest) (seg ++ s) (seg :: caps)

lemma take_ne_nil_of_runLen {p : Char → Bool} {s : List Char} {k : Nat}
    (hk1 : 1 ≤ k) (hk2 : k ≤ runLen p s) : s.take k ≠ [] := by
  have hksl : k ≤ s.length := le_trans hk2 (runLen_le_length _ _)
  have hlen : (s.take k).length = k := by
    rw [List.length_take]
    omega
  intro hcon
  rw [hcon] at hlen
  simp at hlen
  omega

theorem matchItems_sound :
    ∀ {items : List RItem} {s : List Char} {caps : List (List Char)},
      matchItems items s = some caps → Decomp items s caps := by
  intro items
  induction items with
  | nil =>
    intro s caps h
    rw [matchItems] at h
    split at h
    · rename_i hs
      cases h
      rw [hs]
      exact Decomp.nil
    · simp at h
  | cons it rest ih =>
    intro s caps h
    cases it with
    | lit l =>
      rw [matchItems] at h
      split at h
      · rename_i hpre
        have hd := ih h
        have hp : l <+: s := List.isPrefixOf_iff_prefix.1 hpre
        obtain ⟨t, rfl⟩ := hp
        rw [List.drop_left] at hd
        exact Decomp.lit l hd
      · simp at h
    | ws =>
      rw [matchItems] at h
      obtain ⟨k, hk, hfk⟩ := firstSome_eq_some h
      obtain ⟨hk1, hk2⟩ := mem_candidates hk
      have hd := ih hfk
      have hds : s = s.take k ++ s.drop k := (List.take_append_drop k s).symm
      rw [hds]
      exact Decomp.ws (take_ne_nil_of_runLen hk1 hk2) (all_take_of_le_runLen hk2) hd
    | grp lz p =>
      rw [matchItems] at h
      obtain ⟨k, hk, hfk⟩ := firstSome_eq_some h
      obtain ⟨hk1, hk2⟩ := mem_candidates hk
      cases hm : matchItems rest (s.drop k) with
      | none => rw [hm] at hfk; simp at hfk
      | some caps' =>
        rw [hm] at hfk
        simp only [Option.map_some'] at hfk
        have hcaps : s.take k :: caps' = caps := Option.some.inj hfk
        have hd := ih hm
        have hds : s = s.take k ++ s.drop k := (List.take_append_drop k s).symm
        rw [hds, ← hcaps]
        exact Decomp.grp (take_ne_nil_of_runLen hk1 hk2) (all_take_of_le_runLen hk2) hd

lemma decomp_caps_chars {items : List RItem} {s : List Char}
    {caps : List (List Char)} (h : Decomp items s caps) :
    ∀ g ∈ caps, ∀ c ∈ g, c ∈ s := by
  induction h with
  | nil => simp
  | lit l _ ih =>
    intro g hg c hc
    exact List.mem_append_right _ (ih g hg c hc)
  | ws _ _ _ ih =>
    intro g hg c hc
    exact List.mem_append_right _ (ih g hg c hc)
  | grp hne hall _ ih =>
    intro g hg c hc
    rcases List.mem_cons.1 hg with rfl | hg'
    · exact List.mem_append_left _ hc
    · exact List.mem_append_right _ (ih g hg' c hc)

lemma cap_chars {caps : List (List Char)} {i : Nat} {c : Char}
    (h : c ∈ cap caps i) : ∃ g ∈ caps, c ∈ g := by
  induction caps generalizing i with
  | nil => simp [cap, List.getD] at h
  | cons g t ihc =>
    cases i with
    | zero =>
      rw [cap, List.getD_cons_zero] at h
      exact ⟨g, by simp, h⟩
    | succ j =>
      rw [cap, List.getD_cons_succ] at h
      obtain ⟨g', hg', hcg'⟩ := ihc (h := h)
      exact ⟨g', by simp [hg'], hcg'⟩

lemma mem_jsTrim {c : Char} {l : List Char} (h : c ∈ jsTrim l) : c ∈ l := by
  rw [jsTrim] at h
  have h1 := List.mem_reverse.1 h
  have h2 := (List.dropWhile_sublist (l := (l.dropWhile isSpaceChar).reverse)
    (p := isSpaceChar)).subset h1
  have h3 := List.mem_reverse.1 h2
  exact (List.dropWhile_sublist (l := l) (p := isSpaceChar)).subset h3

lemma mem_summaryNormalize {c : Char} {l : List Char}
    (h : c ∈ summaryNormalize l) : c ∈ l := by
  rw [summaryNormalize] at h
  split at h
  · exact mem_jsTrim (List.mem_of_mem_drop (mem_jsTrim h))
  · exact mem_jsTrim h

/-! ## C5: path casing -/

/-- The path is invariant under uppercasing. -/
def upperFixed (p : String) : Prop := jsUpper p.data = p.data

def pathsUpperFixed : Command → Prop
  | .list p _ => upperFixed p
  | .deleteRequest p => upperFixed p
  | .deleteConfirm p => upperFixed p
  | .move a b => upperFixed a ∧ upperFixed b
  | .summary p => upperFixed p
  | .help => True
  | .unknown => True

/-- C5 counterexample: `delete Report.pdf` parses with path
`REPORT.PDF`, not the original casing `Report.pdf` — `parseCommand`
uppercases the whole body before matching, and the confirmation prompt
displays this uppercased path. -/
theorem casing_counterexample :
    parseCommand "delete Report.pdf" = .deleteRequest "REPORT.PDF" ∧
    ("REPORT.PDF" : String) ≠ "Report.pdf" :=
  ⟨by decide, by decide⟩

/-- C5 amended: every path field of a parsed command is an uppercased
(hence generally not original-casing) segment of the message: all path
fields are invariant under `toUpperCase`.  Case-insensitive matching
downstream (C7) still resolves them. -/
theorem paths_uppercased (s : String) : pathsUpperFixed (parseCommand s) := by
  have key : ∀ (pat : List RItem) (caps : List (List Char)),
      matchItems pat (jsUpper (jsTrim s.data)) = some caps →
      ∀ i, upperFixed ⟨cap caps i⟩ := by
    intro pat caps h i
    show jsUpper (cap caps i) = cap caps i
    apply jsUpper_eq_self_of_mem
    intro c hc
    obtain ⟨g, hg, hcg⟩ := cap_chars hc
    exact mem_jsUpper_fixed (decomp_caps_chars (matchItems_sound h) g hg c hcg)
  have keyn : ∀ (pat : List RItem) (caps : List (List Char)),
      matchItems pat (jsUpper (jsTrim s.data)) = some caps →
      ∀ i, upperFixed ⟨summaryNormalize (cap caps i)⟩ := by
    intro pat caps h i
    show jsUpper (summaryNormalize (cap caps i)) = summaryNormalize (cap caps i)
    apply jsUpper_eq_self_of_mem
    intro c hc
    obtain ⟨g, hg, hcg⟩ := cap_chars (mem_summaryNormalize hc)
    exact mem_jsUpper_fixed (decomp_caps_chars (matchItems_sound h) g hg c hcg)
  rw [parseCommand]
  cases h1 : matchItems listPagePat (jsUpper (jsTrim s.data)) with
  | some caps => exact key _ _ h1 0
  | none =>
  cases h2 : matchItems listPat (jsUpper (jsTrim s.data)) with
  | some caps => exact key _ _ h2 0
  | none =>
  cases h3 : matchItems deleteConfirmPat (jsUpper (jsTrim s.data)) with
  | some caps => exact key _ _ h3 0
  | none =>
  cases h4 : matchItems deletePat (jsUpper (jsTrim s.data)) with
  | some caps => exact key _ _ h4 0
  | none =>
  cases h5 : matchItems movePat (jsUpper (jsTrim s.data)) with
  | some caps => exact ⟨key _ _ h5 0, key _ _ h5 1⟩
  | none =>
  cases h6 : matchItems summaryPat (jsUpper (jsTrim s.data)) with
  | some caps => exact keyn _ _ h6 0
  | none =>
  cases h7 : matchItems helpPat (jsUpper (jsTrim s.data)) with
  | some caps => trivial
  | none => trivial

/-! ## C4: the `LIST … PAGE n` rule -/

/-- C4 counterexample: `PAGE 0` parses (page 0 is accepted although 0 is
not positive), and a malformed page number is not routed to Unknown —
the plain LIST rule swallows the whole remainder as the folder path. -/
theorem listPage_counterexample :
    parseCommand "LIST A PAGE 0" = .list "A" 0 ∧
    parseCommand "LIST A PAGE TWO" = .list "A PAGE TWO" 1 :=
  ⟨by decide, by decide⟩

lemma runLen_cons_true {p : Char → Bool} {c : Char} {t : List Char}
    (h : p c = true) : runLen p (c :: t) = runLen p t + 1 := by
  rw [runLen, if_pos h]

lemma runLen_cons_false {p : Char → Bool} {c : Char} {t : List Char}
    (h : p c = false) : runLen p (c :: t) = 0 := by
  rw [runLen, if_neg]
  simp [h]

lemma candidates_true_succ (n : Nat) :
    candidates true (n + 1) = 1 :: List.range' 2 n := by
  rw [candidates, if_pos rfl, List.range'_succ]

lemma candidates_false_succ (n : Nat) :
    candidates false (n + 1) = (n + 1) :: (List.range' 1 n).reverse := by
  rw [candidates, if_neg (by simp), List.range'_concat]
  simp [Nat.add_comm]

lemma firstSome_cons_some {α : Type} {f : Nat → Option α} {k : Nat}
    {ks : List Nat} {r : α} (h : f k = some r) :
    firstSome f (k :: ks) = some r := by
  rw [firstSome, h]

lemma firstSome_singleton {α : Type} (f : Nat → Option α) (k : Nat) :
    firstSome f [k] = f k := by
  cases h : f k with
  | none =>
    rw [firstSome, h]
    rfl
  | some r => rw [firstSome, h]

lemma matchItems_lit {l : List Char} {rest : List RItem} {s : List Char}
    (h : l.isPrefixOf s = true) :
    matchItems (.lit l :: rest) s = matchItems rest (s.drop l.length) := by
  rw [matchItems, if_pos h]

/-- `\s+` over exactly one space. -/
lemma matchItems_ws_one {rest : List RItem} {c : Char} {t : List Char}
    (hc : isSpaceChar c = true) (ht : runLen isSpaceChar t = 0) :
    matchItems (.ws :: rest) (c :: t) = matchItems rest t := by
  rw [matchItems, runLen_cons_true hc, ht, candidates_false_succ 0]
  have : (List.range' 1 0).reverse = ([] : List Nat) := rfl
  rw [this, firstSome_singleton]
  rfl

/-- A lazy group whose one-char minimum already lets the rest match. -/
lemma matchItems_grpLazy_head {rest : List RItem} {p : Char → Bool}
    {c : Char} {t : List Char} {r : List (List Char)}
    (hc : p c = true) (h1 : matchItems rest t = some r) :
    matchItems (.grp true p :: rest) (c :: t) = some ([c] :: r) := by
  rw [matchItems, runLen_cons_true hc, candidates_true_succ]
  apply firstSome_cons_some
  show (matchItems rest ((c :: t).drop 1)).map (fun caps => (c :: t).take 1 :: caps) =
    some ([c] :: r)
  rw [show (c :: t).drop 1 = t from rfl, h1]
  rfl

/-- A greedy group at the end of the pattern swallowing the whole
remaining input. -/
lemma matchItems_grpGreedy_whole {p : Char → Bool} {d : List Char}
    (hne : d ≠ []) (hall : ∀ c ∈ d, p c = true) :
    matchItems [.grp false p] d = some [d] := by
  obtain ⟨m, hm⟩ : ∃ m, d.length = m + 1 := by
    cases d with
    | nil => simp at hne
    | cons c t => exact ⟨t.length, by simp⟩
  rw [matchItems, runLen_all hall, hm, candidates_false_succ m]
  apply firstSome_cons_some
  have hdrop : d.drop (m + 1) = [] := by
    rw [← hm]
    exact List.drop_length d
  have htake : d.take (m + 1) = d := by
    rw [← hm]
    exact List.take_length d
  show (matchItems [] (d.drop (m + 1))).map (fun caps => d.take (m + 1) :: caps) =
    some [d]
  rw [hdrop, htake]
  rfl

lemma jsTrim_eq_self {l : List Char}
    (h1 : ∀ c, l.head? = some c → isSpaceChar c = false)
    (h2 : ∀ c, l.getLast? = some c → isSpaceChar c = false) : jsTrim l = l := by
  rw [jsTrim]
  have d1 : l.dropWhile isSpaceChar = l := by
    cases l with
    | nil => rfl
    | cons c t =>
      rw [List.dropWhile_cons, if_neg]
      simp [h1 c rfl]
  rw [d1]
  have d2 : l.reverse.dropWhile isSpaceChar = l.reverse := by
    cases hr : l.reverse with
    | nil => rfl
    | cons c t =>
      rw [List.dropWhile_cons, if_neg]
      have hc : l.getLast? = some c := by
        rw [← List.head?_reverse, hr]
        rfl
      simp [h2 c hc]
  rw [d2, List.reverse_reverse]

/-- Successful `listPagePat` matches end in a digit. -/
lemma listPage_ends_digit {s : List Char} {caps : List (List Char)}
    (h : matchItems listPagePat s = some caps) :
    ∃ c, s.getLast? = some c ∧ isDigitChar c = true := by
  have hd := matchItems_sound h
  rw [listPagePat] at hd
  cases hd with
  | lit _ hd1 =>
  cases hd1 with
  | ws hne1 hsp1 hd2 =>
  cases hd2 with
  | grp hne2 hall2 hd3 =>
  cases hd3 with
  | ws hne3 hsp3 hd4 =>
  cases hd4 with
  | lit _ hd5 =>
  cases hd5 with
  | ws hne4 hsp4 hd6 =>
  cases hd6 with
  | grp hne5 hall5 hd7 =>
  cases hd7 with
  | nil =>
    rename_i seg1 seg2 seg3 seg4 seg5
    refine ⟨seg5.getLast hne5, ?_, hall5 _ (List.getLast_mem hne5)⟩
    rw [List.append_nil]
    have n1 : seg4 ++ seg5 ≠ [] := List.append_ne_nil_of_right_ne_nil _ hne5
    have n2 : "PAGE".data ++ (seg4 ++ seg5) ≠ [] :=
      List.append_ne_nil_of_right_ne_nil _ n1
    have n3 : seg3 ++ ("PAGE".data ++ (seg4 ++ seg5)) ≠ [] :=
      List.append_ne_nil_of_right_ne_nil _ n2
    have n4 : seg2 ++ (seg3 ++ ("PAGE".data ++ (seg4 ++ seg5))) ≠ [] :=
      List.append_ne_nil_of_right_ne_nil _ n3
    have n5 : seg1 ++ (seg2 ++ (seg3 ++ ("PAGE".data ++ (seg4 ++ seg5)))) ≠ [] :=
      List.append_ne_nil_of_right_ne_nil _ n4
    rw [List.getLast?_append_of_ne_nil _ n5, List.getLast?_append_of_ne_nil _ n4,
      List.getLast?_append_of_ne_nil _ n3, List.getLast?_append_of_ne_nil _ n2,
      List.getLast?_append_of_ne_nil _ n1, List.getLast?_append_of_ne_nil _ hne5]
    exact List.getLast?_eq_getLast _ hne5

lemma listPage_none_of_last {s : List Char} {c : Char}
    (hl : s.getLast? = some c) (hc : isDigitChar c = false) :
    matchItems listPagePat s = none := by
  cases hm : matchItems listPagePat s with
  | none => rfl
  | some caps =>
    obtain ⟨c', hc', hd⟩ := listPage_ends_digit hm
    rw [hl] at hc'
    cases hc'
    rw [hc] at hd
    cases hd

/-- `listPagePat` against `LIST A PAGE <digits>`. -/
lemma listPage_match (d : List Char) (hne : d ≠ [])
    (hall : ∀ c ∈ d, isDigitChar c = true) :
    matchItems listPagePat ("LIST A PAGE ".data ++ d) = some [['A'], d] := by
  obtain ⟨c0, t0, rfl⟩ : ∃ c0 t0, d = c0 :: t0 := by
    cases d with
    | nil => simp at hne
    | cons c t => exact ⟨c, t, rfl⟩
  have hd0 : isDigitChar c0 = true := hall c0 (by simp)
  have hsp0 : runLen isSpaceChar (c0 :: t0) = 0 :=
    runLen_cons_false (isDigit_not_space hd0)
  have hinner : matchItems [.ws, .lit "PAGE".data, .ws, .grp false isDigitChar]
      (' ' :: 'P' :: 'A' :: 'G' :: 'E' :: ' ' ::(c0 :: t0)) = some [c0 :: t0] := by
    rw [matchItems_ws_one (by decide) (by rfl)]
    rw [matchItems_lit (by rfl)]
    rw [show ('P' :: 'A' :: 'G' :: 'E' :: ' ' ::(c0 :: t0)).drop ("PAGE".data.length) =
      ' ' ::(c0 :: t0) from rfl]
    rw [matchItems_ws_one (by decide) hsp0]
    exact matchItems_grpGreedy_whole hne hall
  rw [listPagePat]
  rw [show ("LIST A PAGE ".data ++ (c0 :: t0)) =
    'L' :: 'I' :: 'S' :: 'T' :: ' ' :: 'A' :: ' ' :: 'P' :: 'A' :: 'G' :: 'E' :: ' ' ::(c0 :: t0) from rfl]
  rw [matchItems_lit (by rfl)]
  rw [show ('L' :: 'I' :: 'S' :: 'T' :: ' ' :: 'A' :: ' ' :: 'P' :: 'A' :: 'G' :: 'E' :: ' ' ::(c0 :: t0)).drop
      ("LIST".data.length) = ' ' :: 'A' :: ' ' :: 'P' :: 'A' :: 'G' :: 'E' :: ' ' ::(c0 :: t0) from rfl]
  rw [matchItems_ws_one (by decide) (by rfl)]
  rw [matchItems_grpLazy_head (by decide) hinner]

/-- `listPat` against `LIST <rest>` for a rest starting with a
non-space and containing no line terminator. -/
lemma listPat_match (r : List Char) (hall : ∀ c ∈ r, isDotChar c = true)
    (hhead : ∀ c, r.head? = some c → isSpaceChar c = false) :
    r ≠ [] → matchItems listPat ("LIST ".data ++ r) = some [r] := by
  intro hne
  obtain ⟨c0, t0, rfl⟩ : ∃ c0 t0, r = c0 :: t0 := by
    cases r with
    | nil => simp at hne
    | cons c t => exact ⟨c, t, rfl⟩
  rw [listPat]
  rw [show ("LIST ".data ++ (c0 :: t0)) = 'L' :: 'I' :: 'S' :: 'T' :: ' ' ::(c0 :: t0) from rfl]
  rw [matchItems_lit (by rfl)]
  rw [show ('L' :: 'I' :: 'S' :: 'T' :: ' ' ::(c0 :: t0)).drop ("LIST".data.length) =
    ' ' ::(c0 :: t0) from rfl]
  rw [matchItems_ws_one (by decide) (runLen_cons_false (hhead c0 rfl))]
  exact matchItems_grpGreedy_whole hne hall

lemma jsUpper_append (a b : List Char) : jsUpper (a ++ b) = jsUpper a ++ jsUpper b :=
  List.map_append _ a b

/-- The normalized body of `LIST A PAGE <w>` for a `w` of upper-fixed,
non-space-at-the-ends, dot-class chars is the string itself. -/
lemma list_body_eq (w : List Char) (hne : w ≠ [])
    (hfix : ∀ c ∈ w, upperChar c = c)
    (hlast : ∀ c, w.getLast? = some c → isSpaceChar c = false) :
    jsUpper (jsTrim (String.mk ("LIST A PAGE ".data ++ w)).data) =
      "LIST A PAGE ".data ++ w := by
  have hdata : (String.mk ("LIST A PAGE ".data ++ w)).data =
      "LIST A PAGE ".data ++ w := rfl
  rw [hdata]
  have htrim : jsTrim ("LIST A PAGE ".data ++ w) = "LIST A PAGE ".data ++ w := by
    apply jsTrim_eq_self
    · intro c hc
      rw [show ("LIST A PAGE ".data ++ w).head? = some 'L' from rfl] at hc
      cases hc
      decide
    · intro c hc
      rw [List.getLast?_append_of_ne_nil _ hne] at hc
      exact hlast c hc
  rw [htrim, jsUpper_append]
  rw [jsUpper_eq_self_of_mem hfix]
  rw [show jsUpper "LIST A PAGE ".data = "LIST A PAGE ".data from by decide]

/-- C4 amended: the PAGE rule accepts any digit string as `n`,
including `0` (positivity is not checked); and a malformed `n` is not
routed to Unknown — the plain LIST rule matches instead, taking the
entire remainder (including `PAGE …`) as the folder path with page 1. -/
theorem listPage_amended :
    (∀ d : List Char, d ≠ [] → (∀ c ∈ d, isDigitChar c = true) →
      parseCommand ⟨"LIST A PAGE ".data ++ d⟩ = .list "A" (digitsToNat d)) ∧
    (∀ w : List Char, w ≠ [] →
      (∀ c ∈ w, isDotChar c = true ∧ isSpaceChar c = false ∧ upperChar c = c) →
      (∀ c, w.getLast? = some c → isDigitChar c = false) →
      parseCommand ⟨"LIST A PAGE ".data ++ w⟩ = .list ⟨"A PAGE ".data ++ w⟩ 1) := by
  constructor
  · intro d hne hall
    have hbody := list_body_eq d hne (fun c hc => isDigit_upper_fixed (hall c hc))
      (fun c hc =>
        isDigit_not_space (hall c (List.mem_of_getLast?_eq_some hc)))
    rw [parseCommand, hbody, listPage_match d hne hall]
    rfl
  · intro w hne hprops hlastd
    have hfix : ∀ c ∈ w, upperChar c = c := fun c hc => (hprops c hc).2.2
    have hlastns : ∀ c, w.getLast? = some c → isSpaceChar c = false := by
      intro c hc
      exact (hprops c (List.mem_of_getLast?_eq_some hc)).2.1
    have hbody := list_body_eq w hne hfix hlastns
    rw [parseCommand, hbody]
    have hnone : matchItems listPagePat ("LIST A PAGE ".data ++ w) = none := by
      obtain ⟨c, hc⟩ : ∃ c, w.getLast? = some c := by
        cases hw : w.getLast? with
        | none => rw [List.getLast?_eq_none_iff] at hw; exact absurd hw hne
        | some c => exact ⟨c, rfl⟩
      refine listPage_none_of_last (c := c) ?_ (hlastd c hc)
      rw [List.getLast?_append_of_ne_nil _ hne]
      exact hc
    rw [hnone]
    have hmatch : matchItems listPat ("LIST A PAGE ".data ++ w) =
        some ["A PAGE ".data ++ w] := by
      have : ("LIST A PAGE ".data ++ w) = "LIST ".data ++ ("A PAGE ".data ++ w) := rfl
      rw [this]
      apply listPat_match
      · intro c hc
        rcases List.mem_append.1 hc with hc' | hc'
        · exact (by decide : ∀ x ∈ "A PAGE ".data, isDotChar x = true) c hc'
        · exact (hprops c hc').1
      · intro c hc
        rw [show ("A PAGE ".data ++ w).head? = some 'A' from rfl] at hc
        cases hc
        decide
      · exact List.append_ne_nil_of_right_ne_nil _ hne
    rw [hmatch]
    rfl

/-- Witness for C4 amended: page `7`, and the malformed page `TWO`. -/
theorem listPage_amended_witness :
    parseCommand ⟨"LIST A PAGE ".data ++ ['7']⟩ = .list "A" (digitsToNat ['7']) ∧
    parseCommand ⟨"LIST A PAGE ".data ++ ['T', 'W', 'O']⟩ =
      .list ⟨"A PAGE ".data ++ ['T', 'W', 'O']⟩ 1 :=
  ⟨listPage_amended.1 ['7'] (by decide) (by decide),
   listPage_amended.2 ['T', 'W', 'O'] (by decide) (by decide) (by decide)⟩

/-! ## C6: LIST pagination -/

lemma jsSlice_nat {α : Type} (l : List α) (a : Nat) :
    jsSlice l (a : Int) ((a : Int) + 10) = (l.drop a).take 10 := by
  rw [jsSlice]
  simp only [if_neg (by omega : ¬((a : Int) < 0)),
    if_neg (by omega : ¬((a : Int) + 10 < 0))]
  have e1 : (min (a : Int) (l.length : Int)).toNat = min a l.length := by omega
  have e2 : (min ((a : Int) + 10) (l.length : Int)).toNat = min (a + 10) l.length := by
    omega
  rw [e1, e2]
  by_cases hc : a ≤ l.length
  · have hm : min a l.length = a := by omega
    rw [hm]
    refine List.take_eq_take.2 ?_
    simp only [List.length_drop]
    omega
  · have hm : min a l.length = l.length := by omega
    rw [hm, List.drop_length, List.drop_eq_nil_of_le (by omega)]
    simp

/-- C6: for `List(path, n)` with `n ≥ 1` over a resolvable folder with
`L` non-trashed children, the result carries `page = n`,
`totalPages = ⌈L/10⌉` (as `(L+9)/10`), and the slice of at most ten
entries starting at index `(n-1)*10` of the name-ordered child list;
a page beyond the range yields an empty slice, not an error. -/
theorem listFiles_pagination (store : List DFile) (p : String) (n : Nat) (fid : String)
    (hn : 1 ≤ n) (hr : resolveFolderId store p = some fid) :
    (listFiles store p n).1 =
      .ok (((qChildren store fid).drop ((n - 1) * 10)).take 10)
        (qChildren store fid).length n
        (((qChildren store fid).length + 9) / 10) ∧
    (((qChildren store fid).drop ((n - 1) * 10)).take 10).length ≤ 10 ∧
    ((qChildren store fid).length ≤ 10 * (((qChildren store fid).length + 9) / 10) ∧
      10 * (((qChildren store fid).length + 9) / 10) <
        (qChildren store fid).length + 10) ∧
    ((qChildren store fid).length ≤ (n - 1) * 10 →
      ((qChildren store fid).drop ((n - 1) * 10)).take 10 = []) := by
  refine ⟨?_, ?_, ⟨by omega, by omega⟩, ?_⟩
  · simp only [listFiles, hr]
    have hps : (pageSize : Int) = 10 := rfl
    have hc : ((n : Int) - 1) * (pageSize : Int) = (((n - 1) * 10 : Nat) : Int) := by
      rw [hps]
      push_cast [Nat.cast_sub hn]
      ring
    rw [hc, hps, jsSlice_nat]
    congr 1
  · exact List.length_take_le _ _
  · intro h
    rw [List.drop_eq_nil_of_le (by omega)]
    rfl

/-- Witness for C6: page 1 of the root of a small store. -/
theorem listFiles_pagination_witness :
    (listFiles demoStore "/" 1).1 =
      .ok (((qChildren demoStore "root").drop 0).take 10)
        (qChildren demoStore "root").length 1
        (((qChildren demoStore "root").length + 9) / 10) ∧
    (((qChildren demoStore "root").drop 0).take 10).length ≤ 10 ∧
    ((qChildren demoStore "root").length ≤
        10 * (((qChildren demoStore "root").length + 9) / 10) ∧
      10 * (((qChildren demoStore "root").length + 9) / 10) <
        (qChildren demoStore "root").length + 10) ∧
    ((qChildren demoStore "root").length ≤ 0 →
      ((qChildren demoStore "root").drop 0).take 10 = []) := by
  have h := listFiles_pagination demoStore "/" 1 "root" (by decide) (by decide)
  simpa using h

/-! ## C7: two-phase resolution, NotFound as a value -/

/-- C7: resolution issues the exact query first and uses its first
result; only on an empty exact result does it scan all entries of the
kind for the first case-insensitive match in store order; a miss
surfaces as an error value carrying the query string, never as an
exception (the operations are total functions into result types). -/
theorem resolver_two_phase :
    (∀ (store : List DFile) (p : String) (f : DFile) (rest : List DFile),
        qNameNotTrashed store p = f :: rest → resolveFileByName store p = some f) ∧
    (∀ (store : List DFile) (p : String),
        qNameNotTrashed store p = [] →
        resolveFileByName store p =
          (qNotTrashed store).find? (fun f => ciEq f.name p)) ∧
    (∀ (store : List DFile) (p : String),
        resolveFileByName store p = none →
        deleteFile store p = (.err (fileNotFoundMsg p), resolveFileCalls store p)) ∧
    (∀ (store : List DFile) (p : String) (f : DFile) (rest : List DFile),
        p ≠ "/" → p ≠ "ROOT" → qNameFolder store p = f :: rest →
        resolveFolderId store p = some f.id) ∧
    (∀ (store : List DFile) (p : String),
        p ≠ "/" → p ≠ "ROOT" → qNameFolder store p = [] →
        resolveFolderId store p =
          ((qFolders store).find? (fun f => ciEq f.name p)).map (fun f => f.id)) ∧
    (∀ (store : List DFile) (p : String) (n : Nat),
        resolveFolderId store p = none →
        (listFiles store p n).1 = .err (folderNotFoundMsg p)) ∧
    (∀ (store : List DFile) (p : String),
        (deleteFile store p).1 = .ok p ∨
        (deleteFile store p).1 = .err (fileNotFoundMsg p)) := by
  refine ⟨?_, ?_, ?_, ?_, ?_, ?_, ?_⟩
  · intro store p f rest h
    rw [resolveFileByName, h]
  · intro store p h
    rw [resolveFileByName, h]
  · intro store p h
    rw [deleteFile, h]
  · intro store p f rest hs hr h
    simp only [resolveFolderId, hs, hr, h]
    simp
  · intro store p hs hr h
    simp only [resolveFolderId, hs, hr, h]
    simp
  · intro store p n h
    simp only [listFiles, h]
  · intro store p
    rw [deleteFile]
    cases resolveFileByName store p <;> simp

/-- Witness for C7: exact hit on `X`, fallback and NotFound on `Y`,
folder NotFound on `F`, over the one-file store. -/
theorem resolver_two_phase_witness :
    resolveFileByName demoStore "X" =
      some { id := "id1", name := "X", mimeType := "text/plain", trashed := false,
             parents := ["root"] } ∧
    resolveFileByName demoStore "Y" =
      (qNotTrashed demoStore).find? (fun f => ciEq f.name "Y") ∧
    deleteFile demoStore "Y" =
      (.err (fileNotFoundMsg "Y"), resolveFileCalls demoStore "Y") ∧
    resolveFolderId demoStore "F" =
      ((qFolders demoStore).find? (fun f => ciEq f.name "F")).map (fun f => f.id) ∧
    (listFiles demoStore "F" 1).1 = .err (folderNotFoundMsg "F") := by
  refine ⟨?_, ?_, ?_, ?_, ?_⟩
  · exact resolver_two_phase.1 demoStore "X" _ [] (by decide)
  · exact resolver_two_phase.2.1 demoStore "Y" (by decide)
  · exact resolver_two_phase.2.2.1 demoStore "Y" (by decide)
  · exact resolver_two_phase.2.2.2.2.1 demoStore "F" (by decide) (by decide) (by decide)
  · exact resolver_two_phase.2.2.2.2.2.1 demoStore "F" 1 (by decide)

/-! ## C3: audit segment rotation -/

lemma rotStep_active (mf : Nat) (fs : LogFS) (i : Nat) :
    (rotStep mf fs i).active = fs.active := by
  rw [rotStep]
  split
  · rfl
  · split <;> rfl

lemma rotLoop_active (mf : Nat) (fs : LogFS) (i : Nat) :
    (rotLoop mf fs i).active = fs.active := by
  induction i generalizing fs with
  | zero => rfl
  | succ k ih => rw [rotLoop, ih, rotStep_active]

lemma string_empty_append (s : String) : "" ++ s = s := by
  obtain ⟨d⟩ := s
  rfl

/-- C3 (configuration `maxFiles = 5`, i.e. `N = 4` retained rotated
segments): when an append finds the active segment over the threshold,
the rotation shifts `.1`–`.3` to `.2`–`.4` (dropping the old `.4`),
puts the previously active content in `.1`, leaves nothing at index 5
or beyond, and the new entry goes to a fresh active segment. -/
theorem audit_rotation (fs : LogFS) (T : Nat) (line c : String)
    (ha : fs.active = some c) (hsz : segSize c > T)
    (hb : ∀ i, 5 ≤ i → fs.rot i = none) :
    (writeLogEntry 5 T fs line).rot 1 = some c ∧
    (writeLogEntry 5 T fs line).rot 2 = fs.rot 1 ∧
    (writeLogEntry 5 T fs line).rot 3 = fs.rot 2 ∧
    (writeLogEntry 5 T fs line).rot 4 = fs.rot 3 ∧
    (∀ i, 5 ≤ i → (writeLogEntry 5 T fs line).rot i = none) ∧
    (writeLogEntry 5 T fs line).active = some line := by
  have hrl : rotLoop 5 fs 4 =
      rotStep 5 (rotStep 5 (rotStep 5 (rotStep 5 fs 4) 3) 2) 1 := rfl
  have hact : (rotLoop 5 fs 4).active = fs.active := rotLoop_active 5 fs 4
  have hrot : rotateLogFile 5 fs =
      { active := none,
        rot := fun j => if j = 1 then some c else (rotLoop 5 fs 4).rot j } := by
    rw [rotateLogFile]
    simp only [hact, ha]
  have hw : writeLogEntry 5 T fs line =
      { active := some line,
        rot := fun j => if j = 1 then some c else (rotLoop 5 fs 4).rot j } := by
    rw [writeLogEntry, ha]
    simp only [gt_iff_lt, hsz, if_true, hrot, Option.getD_none]
    rw [string_empty_append]
  have k2 : (rotLoop 5 fs 4).rot 2 = fs.rot 1 := by
    rw [hrl]
    rcases h1 : fs.rot 1 with _ | c1 <;> rcases h2 : fs.rot 2 with _ | c2 <;>
      rcases h3 : fs.rot 3 with _ | c3 <;> rcases h4 : fs.rot 4 with _ | c4 <;>
        simp [rotStep, h1, h2, h3, h4]
  have k3 : (rotLoop 5 fs 4).rot 3 = fs.rot 2 := by
    rw [hrl]
    rcases h1 : fs.rot 1 with _ | c1 <;> rcases h2 : fs.rot 2 with _ | c2 <;>
      rcases h3 : fs.rot 3 with _ | c3 <;> rcases h4 : fs.rot 4 with _ | c4 <;>
        simp [rotStep, h1, h2, h3, h4]
  have k4 : (rotLoop 5 fs 4).rot 4 = fs.rot 3 := by
    rw [hrl]
    rcases h1 : fs.rot 1 with _ | c1 <;> rcases h2 : fs.rot 2 with _ | c2 <;>
      rcases h3 : fs.rot 3 with _ | c3 <;> rcases h4 : fs.rot 4 with _ | c4 <;>
        simp [rotStep, h1, h2, h3, h4]
  have k5 : ∀ i, 5 ≤ i → (rotLoop 5 fs 4).rot i = none := by
    intro i hi
    have h5 : ¬(i = 1) := by omega
    have h6 : ¬(i = 2) := by omega
    have h7 : ¬(i = 3) := by omega
    have h8 : ¬(i = 4) := by omega
    rw [hrl]
    rcases h1 : fs.rot 1 with _ | c1 <;> rcases h2 : fs.rot 2 with _ | c2 <;>
      rcases h3 : fs.rot 3 with _ | c3 <;> rcases h4 : fs.rot 4 with _ | c4 <;>
        simp [rotStep, h1, h2, h3, h4, h5, h6, h7, h8, hb i hi]
  refine ⟨?_, ?_, ?_, ?_, ?_, ?_⟩
  · rw [hw]
    simp
  · rw [hw]
    simpa using k2
  · rw [hw]
    simpa using k3
  · rw [hw]
    simpa using k4
  · intro i hi
    rw [hw]
    have : ¬(i = 1) := by omega
    simpa [this] using k5 i hi
  · rw [hw]

def demoFS : LogFS :=
  { active := some "0123456789AB",
    rot := fun i => if i = 1 then some "one" else none }

/-- Witness for C3: a 12-byte active segment over a 10-byte threshold,
one pre-existing rotated segment. -/
theorem audit_rotation_witness :
    (writeLogEntry 5 10 demoFS "L").rot 1 = some "0123456789AB" ∧
    (writeLogEntry 5 10 demoFS "L").rot 2 = demoFS.rot 1 ∧
    (writeLogEntry 5 10 demoFS "L").rot 3 = demoFS.rot 2 ∧
    (writeLogEntry 5 10 demoFS "L").rot 4 = demoFS.rot 3 ∧
    (∀ i, 5 ≤ i → (writeLogEntry 5 10 demoFS "L").rot i = none) ∧
    (writeLogEntry 5 10 demoFS "L").active = some "L" :=
  audit_rotation demoFS 10 "L" "0123456789AB" rfl (by decide)
    (fun i hi => by simp [demoFS]; omega)

/-! ## C8: MOVE single-homes the source under the destination -/

lemma resolveFileByName_mem {store : List DFile} {p : String} {f : DFile}
    (h : resolveFileByName store p = some f) : f ∈ store := by
  rw [resolveFileByName] at h
  split at h
  · have := List.mem_of_find?_eq_some h
    exact (List.mem_filter.1 this).1
  · rename_i f' rest heq
    cases h
    have : f ∈ qNameNotTrashed store p := by
      rw [heq]; exact List.mem_cons_self _ _
    exact (List.mem_filter.1 this).1

lemma filter_not_contains_self (l : List String) :
    l.filter (fun p => !(l.contains p)) = [] := by
  rw [List.filter_eq_nil_iff]
  intro a ha
  simp [ha]

lemma applyCalls_resolveFileCalls (store store' : List DFile) (p : String) :
    applyCalls store (resolveFileCalls store' p) = store := by
  rw [resolveFileCalls]
  split <;> rfl

lemma applyCalls_resolveFolderCalls (store store' : List DFile) (p : String) :
    applyCalls store (resolveFolderCalls store' p) = store := by
  rw [resolveFolderCalls]
  split
  · rfl
  · split <;> rfl

/-- C8: a successful move reports success and leaves the source entry
with parent set exactly `{destination}` — every previous parent is
removed, even when there were several. -/
theorem moveFile_single_homing (store : List DFile) (src dst : String)
    (f : DFile) (d : String)
    (hs : resolveFileByName store src = some f)
    (hd : resolveFolderId store dst = some d)
    (huniq : ∀ g ∈ store, g.id = f.id → g = f) :
    (moveFile store src dst).1 = .ok src dst ∧
    (∀ g ∈ applyCalls store (moveFile store src dst).2,
        g.id = f.id → g.parents = [d]) ∧
    (∃ g ∈ applyCalls store (moveFile store src dst).2,
        g.id = f.id ∧ g.parents = [d]) := by
  have hm : moveFile store src dst =
      (.ok src dst,
       resolveFileCalls store src ++ resolveFolderCalls store dst ++
         [.filesUpdate f.id d f.parents]) := by
    rw [moveFile, hs, hd]
  have happ : applyCalls store (moveFile store src dst).2 =
      store.map (fun g =>
        if g.id = f.id then
          { g with parents := g.parents.filter (fun q => !(f.parents.contains q)) ++ [d] }
        else g) := by
    rw [hm]
    show applyCalls store _ = _
    rw [applyCalls, List.foldl_append, List.foldl_append]
    rw [show List.foldl applyCall store (resolveFileCalls store src) =
        applyCalls store (resolveFileCalls store src) from rfl,
      applyCalls_resolveFileCalls]
    rw [show List.foldl applyCall store (resolveFolderCalls store dst) =
        applyCalls store (resolveFolderCalls store dst) from rfl,
      applyCalls_resolveFolderCalls]
    rfl
  refine ⟨by rw [hm], ?_, ?_⟩
  · intro g hg hid
    rw [happ] at hg
    obtain ⟨g0, hg0, heq⟩ := List.mem_map.1 hg
    by_cases h0 : g0.id = f.id
    · rw [if_pos h0] at heq
      have hgf : g0 = f := huniq g0 hg0 h0
      rw [← heq]
      simp only [hgf, filter_not_contains_self, List.nil_append]
    · rw [if_neg h0] at heq
      rw [← heq] at hid
      exact absurd hid h0
  · have hf : f ∈ store := resolveFileByName_mem hs
    refine ⟨(fun g => if g.id = f.id then
        { g with parents := g.parents.filter (fun q => !(f.parents.contains q)) ++ [d] }
      else g) f, ?_, ?_, ?_⟩
    · rw [happ]
      exact List.mem_map_of_mem _ hf
    · simp
    · simp [filter_not_contains_self]

def demoStore3 : List DFile :=
  [{ id := "r1", name := "report.pdf", mimeType := "application/pdf",
     trashed := false, parents := ["p1", "p2"] },
   { id := "a1", name := "archive", mimeType := folderMime,
     trashed := false, parents := ["root"] }]

/-- Witness for C8: `report.pdf` with two parents moved to `archive`
ends with parent set exactly `{a1}`. -/
theorem moveFile_single_homing_witness :
    (moveFile demoStore3 "report.pdf" "archive").1 = .ok "report.pdf" "archive" ∧
    (∀ g ∈ applyCalls demoStore3 (moveFile demoStore3 "report.pdf" "archive").2,
        g.id = "r1" → g.parents = ["a1"]) ∧
    (∃ g ∈ applyCalls demoStore3 (moveFile demoStore3 "report.pdf" "archive").2,
        g.id = "r1" ∧ g.parents = ["a1"]) :=
  moveFile_single_homing demoStore3 "report.pdf" "archive"
    { id := "r1", name := "report.pdf", mimeType := "application/pdf",
      trashed := false, parents := ["p1", "p2"] }
    "a1" (by decide) (by decide) (by decide)

end WGA
